import Mathlib

/-!
Shallow embedding of the `mishell` interactive command launcher
(src/main.cpp) and proofs about its specified behaviour.

The embedding models:
* `parseCommand` — the whitespace tokenizer (`istringstream >> token` loop);
* `isRedirection` — the redirection resolver, with an abstract filesystem
  oracle `FS` deciding which paths open successfully, explicit descriptor
  allocation, and an event trace recording opens and error reports;
* `executeCommand` — the single-stage launcher, parent side: resolution,
  fork (success decided by a Boolean oracle), parent's closes and wait;
* `splitPipe` / `executePipedCommands` — the stage splitter and the
  two-stage launcher, parent side, with pipe/fork oracles;
* `hasPipe`, `dispatch` — pipe detection and the routing in `main`'s loop.

Descriptors are allocated from a counter in `ShellState`; the list
`openFds` tracks the descriptors the parent currently holds open, so
descriptor-leak properties are statements about that list. Child-side
behaviour that the claims mention (the argument vector handed to `execvp`)
is modelled by the pure function `childArgv`.
-/

namespace Mishell

/-- Whitespace as recognised by `operator>>` on an `istringstream`
(the classic-locale `isspace` set). -/
def isSpace (c : Char) : Bool :=
  c = ' ' || c = '\t' || c = '\n' || c = '\x0b' || c = '\x0c' || c = '\r'

/-- Character-level loop of `parseCommand` (src/main.cpp): `cur` holds the
token being read, in reverse; whitespace finishes the current token,
other characters extend it. -/
def parseAux : List Char → List Char → List (List Char)
  | [], cur => if cur = [] then [] else [cur.reverse]
  | c :: rest, cur =>
    if isSpace c then
      if cur = [] then parseAux rest [] else cur.reverse :: parseAux rest []
    else
      parseAux rest (c :: cur)

/-- `parseCommand` from src/main.cpp: split the input line into
whitespace-delimited tokens. -/
def parseCommand (input : String) : List String :=
  (parseAux input.data []).map fun cs => String.mk cs

/-- Modelled from the spec (§4.1): the ordered sequence of maximal runs of
non-whitespace characters — skip leading whitespace, take the maximal
non-whitespace run as the next token, continue after it. -/
def specTokensL : List Char → List (List Char)
  | [] => []
  | c :: rest =>
    if isSpace c then
      specTokensL rest
    else
      (c :: rest.takeWhile fun d => !isSpace d) ::
        specTokensL (rest.dropWhile fun d => !isSpace d)
termination_by cs => cs.length
decreasing_by
  all_goals
    have h : ∀ l : List Char,
        (l.dropWhile fun d => !isSpace d).length ≤ l.length := by
      intro l
      induction l with
      | nil => simp [List.dropWhile]
      | cons x xs ih =>
        by_cases hx : (!isSpace x) = true
        · simp only [List.dropWhile, hx]
          exact Nat.le_trans ih (Nat.le_succ _)
        · simp [List.dropWhile, hx]
    have h' := h rest
    simp only [List.length_cons]
    omega

/-- Modelled from the spec (§4.1): the spec-side tokenizer on strings. -/
def specTokens (input : String) : List String :=
  (specTokensL input.data).map fun cs => String.mk cs

/-- The read loop's filter in `main`: only the empty line is skipped
(`input.empty()`). -/
def acceptsLine (input : String) : Bool :=
  input != ""

/-- Abstract filesystem oracle: which paths `open` succeeds on, for
read-only opens and for write/create/truncate opens respectively. -/
structure FS where
  canRead : String → Bool
  canWrite : String → Bool

/-- Parent-side observable events of one command cycle. -/
inductive Event where
  | openR (path : String) (fd : Nat)
  | openW (path : String) (fd : Nat)
  | openFail (path : String)
  | pipeCreated (rfd wfd : Nat)
  | pipeFail
  | closeFd (fd : Nat)
  | forked (pid : Nat)
  | forkFail
  | waitAny
  | waited (pid : Nat)
  deriving DecidableEq

/-- Parent-process resource state: fresh-descriptor counter, the list of
descriptors the parent currently holds open (beyond its baseline), and a
fresh-pid counter. -/
structure ShellState where
  nextFd : Nat
  openFds : List Nat
  nextPid : Nat
  deriving DecidableEq

/-- Allocate a fresh descriptor (a successful `open`/`pipe` end). -/
def ShellState.openFd (st : ShellState) : ShellState × Nat :=
  ({ st with nextFd := st.nextFd + 1, openFds := st.nextFd :: st.openFds },
    st.nextFd)

/-- Close a descriptor held by the parent. -/
def ShellState.closeFd (st : ShellState) (fd : Nat) : ShellState :=
  { st with openFds := st.openFds.erase fd }

/-- Allocate a fresh child pid (a successful `fork`). -/
def ShellState.spawn (st : ShellState) : ShellState × Nat :=
  ({ st with nextPid := st.nextPid + 1 }, st.nextPid)

/-- Result of the redirection resolver: success flag, parent state after
the opens, the `inFile`/`outFile` out-parameters (`none` models `-1`),
and the trace of opens and error reports. -/
structure RedirResult where
  ok : Bool
  st : ShellState
  inFile : Option Nat
  outFile : Option Nat
  events : List Event
  deriving DecidableEq

/-- Scan loop of `isRedirection` (src/main.cpp): on `"<"` with a following
token, open it read-only (failure reports and returns `false` at once); on
`">"` with a following token, open it write/create/truncate; a trailing
operator with no following token does nothing. The index advances by one
each iteration, so filename tokens are themselves inspected next. -/
def isRedirectionAux (fs : FS) :
    List String → ShellState → Option Nat → Option Nat → RedirResult
  | [], st, inF, outF => ⟨true, st, inF, outF, []⟩
  | a :: rest, st, inF, outF =>
    if a = "<" then
      match rest with
      | [] => isRedirectionAux fs rest st inF outF
      | f :: _ =>
        if fs.canRead f then
          let p := st.openFd
          let r := isRedirectionAux fs rest p.1 (some p.2) outF
          { r with events := Event.openR f p.2 :: r.events }
        else
          ⟨false, st, inF, outF, [Event.openFail f]⟩
    else if a = ">" then
      match rest with
      | [] => isRedirectionAux fs rest st inF outF
      | f :: _ =>
        if fs.canWrite f then
          let p := st.openFd
          let r := isRedirectionAux fs rest p.1 inF (some p.2)
          { r with events := Event.openW f p.2 :: r.events }
        else
          ⟨false, st, inF, outF, [Event.openFail f]⟩
    else
      isRedirectionAux fs rest st inF outF

/-- `isRedirection` from src/main.cpp: both descriptors start unset
(`inFile = outFile = -1`). -/
def isRedirection (fs : FS) (args : List String) (st : ShellState) :
    RedirResult :=
  isRedirectionAux fs args st none none

/-- Argument vector built in the single-stage child (src/main.cpp,
`executeCommand` child branch): push tokens until the first `"<"` or
`">"`, then stop. -/
def childArgv : List String → List String
  | [] => []
  | a :: rest => if a = "<" || a = ">" then [] else a :: childArgv rest

/-- The null-terminated vector the child hands to `execvp`
(`argv.push_back(nullptr)`). -/
def childArgvNull (args : List String) : List (Option String) :=
  (childArgv args).map some ++ [none]

/-- Parent state and event trace of one launcher invocation. -/
structure ExecResult where
  st : ShellState
  events : List Event
  deriving DecidableEq

/-- `executeCommand` from src/main.cpp, parent side: resolve redirections
(abort on failure), fork (report and return on failure — note the source
closes nothing on that path), and in the parent close the redirection
descriptors and perform one `wait(nullptr)`. -/
def executeCommand (fs : FS) (forkOk : Bool) (args : List String)
    (st : ShellState) : ExecResult :=
  let r := isRedirection fs args st
  if r.ok then
    if forkOk then
      let p := r.st.spawn
      let st1 := match r.inFile with
        | some fd => p.1.closeFd fd
        | none => p.1
      let st2 := match r.outFile with
        | some fd => st1.closeFd fd
        | none => st1
      let closes :=
        (match r.inFile with
          | some fd => [Event.closeFd fd]
          | none => []) ++
        match r.outFile with
          | some fd => [Event.closeFd fd]
          | none => []
      ⟨st2, r.events ++ [Event.forked p.2] ++ closes ++ [Event.waitAny]⟩
    else
      ⟨r.st, r.events ++ [Event.forkFail]⟩
  else
    ⟨r.st, r.events⟩

/-- Stage-splitting loop of `executePipedCommands` (src/main.cpp): every
`"|"` token sets `foundPipe` and is skipped (`continue`); other tokens go
to `cmd1` before the first `"|"` and to `cmd2` after it. -/
def splitPipeAux : List String → Bool → List String × List String
  | [], _ => ([], [])
  | a :: rest, found =>
    if a = "|" then
      splitPipeAux rest true
    else
      let p := splitPipeAux rest found
      if found then (p.1, a :: p.2) else (a :: p.1, p.2)

/-- The pipeline splitter: `(cmd1, cmd2)` as built by
`executePipedCommands`. -/
def splitPipe (args : List String) : List String × List String :=
  splitPipeAux args false

/-- `executePipedCommands` from src/main.cpp, parent side: create the
pipe (abort on failure), fork child A (report and return on failure,
pipe ends left open), fork child B (likewise), then close both pipe ends
and `waitpid` each child in creation order. -/
def executePipedCommands (pipeOk fork1Ok fork2Ok : Bool)
    (_args : List String) (st : ShellState) : ExecResult :=
  if pipeOk then
    let pr := st.openFd
    let pw := pr.1.openFd
    if fork1Ok then
      let c1 := pw.1.spawn
      if fork2Ok then
        let c2 := c1.1.spawn
        let stFinal := (c2.1.closeFd pr.2).closeFd pw.2
        ⟨stFinal,
          [Event.pipeCreated pr.2 pw.2, Event.forked c1.2,
            Event.forked c2.2, Event.closeFd pr.2, Event.closeFd pw.2,
            Event.waited c1.2, Event.waited c2.2]⟩
      else
        ⟨c1.1, [Event.pipeCreated pr.2 pw.2, Event.forked c1.2,
          Event.forkFail]⟩
    else
      ⟨pw.1, [Event.pipeCreated pr.2 pw.2, Event.forkFail]⟩
  else
    ⟨st, [Event.pipeFail]⟩

/-- `hasPipe` from src/main.cpp: true iff some token equals `"|"`. -/
def hasPipe : List String → Bool
  | [] => false
  | a :: rest => if a = "|" then true else hasPipe rest

/-- The four routes `main`'s loop body can take for one command. -/
inductive Route where
  | exitLoop
  | builtinCd
  | piped
  | single
  deriving DecidableEq

/-- Routing in `main` (src/main.cpp): `exit` breaks the loop, `cd` runs
the built-in, a pipe token selects the two-stage launcher, anything else
the single-stage launcher. (`main` reads `args[0]`, so this is only
meaningful for non-empty token lists; the `[]` equation is junk.) -/
def dispatch : List String → Route
  | [] => Route.single
  | a :: rest =>
    if a = "exit" then Route.exitLoop
    else if a = "cd" then Route.builtinCd
    else if hasPipe (a :: rest) then Route.piped
    else Route.single

/-- Transcription of "the token list contains `<` followed by a path that
cannot be opened for reading, or `>` followed by a path that cannot be
created/opened for writing" as a Boolean scan over adjacent token pairs. -/
def hasBadRedirect (fs : FS) : List String → Bool
  | [] => false
  | [_] => false
  | a :: f :: rest =>
    (a == "<" && !fs.canRead f) || (a == ">" && !fs.canWrite f) ||
      hasBadRedirect fs (f :: rest)

/-- Whether the last token of a list is one of the two redirection
operators. -/
def lastIsOperator : List String → Bool
  | [] => false
  | [a] => a == "<" || a == ">"
  | _ :: b :: rest => lastIsOperator (b :: rest)

/-! ### Helper lemmas -/

/-- Once the pipe has been seen, the split loop sends every later token to
`cmd2` and skips every further `"|"` token. -/
theorem splitPipeAux_found (l : List String) :
    splitPipeAux l true = ([], l.filter fun t => t != "|") := by
  induction l with
  | nil => simp [splitPipeAux]
  | cons a rest ih =>
    by_cases ha : a = "|"
    · simp [splitPipeAux, ha, ih, List.filter_cons]
    · simp [splitPipeAux, ha, ih, List.filter_cons]

/-- `hasPipe` detects exactly the presence of a `"|"` token. -/
theorem hasPipe_iff (args : List String) : hasPipe args = true ↔ "|" ∈ args := by
  induction args with
  | nil => simp [hasPipe]
  | cons a rest ih =>
    by_cases ha : a = "|"
    · simp [hasPipe, ha]
    · simp only [hasPipe, if_neg ha, ih, List.mem_cons]
      exact ⟨Or.inr, fun h => h.elim (fun h' => absurd h'.symm ha) id⟩

/-- Unfolding equation: a lone trailing `"<"` or a lone trailing `">"`
does nothing. -/
theorem isRedirectionAux_op_nil (fs : FS) (st : ShellState)
    (inF outF : Option Nat) :
    isRedirectionAux fs ["<"] st inF outF = ⟨true, st, inF, outF, []⟩ ∧
    isRedirectionAux fs [">"] st inF outF = ⟨true, st, inF, outF, []⟩ :=
  ⟨rfl, rfl⟩

/-- Unfolding equation for `"<"` with a following token. -/
theorem isRedirectionAux_cons_lt (fs : FS) (f : String)
    (rest' : List String) (st : ShellState) (inF outF : Option Nat) :
    isRedirectionAux fs ("<" :: f :: rest') st inF outF =
      if fs.canRead f then
        ⟨(isRedirectionAux fs (f :: rest') st.openFd.1 (some st.openFd.2)
            outF).ok,
          (isRedirectionAux fs (f :: rest') st.openFd.1 (some st.openFd.2)
            outF).st,
          (isRedirectionAux fs (f :: rest') st.openFd.1 (some st.openFd.2)
            outF).inFile,
          (isRedirectionAux fs (f :: rest') st.openFd.1 (some st.openFd.2)
            outF).outFile,
          Event.openR f st.openFd.2 ::
            (isRedirectionAux fs (f :: rest') st.openFd.1 (some st.openFd.2)
              outF).events⟩
      else ⟨false, st, inF, outF, [Event.openFail f]⟩ := rfl

/-- Unfolding equation for `">"` with a following token. -/
theorem isRedirectionAux_cons_gt (fs : FS) (f : String)
    (rest' : List String) (st : ShellState) (inF outF : Option Nat) :
    isRedirectionAux fs (">" :: f :: rest') st inF outF =
      if fs.canWrite f then
        ⟨(isRedirectionAux fs (f :: rest') st.openFd.1 inF
            (some st.openFd.2)).ok,
          (isRedirectionAux fs (f :: rest') st.openFd.1 inF
            (some st.openFd.2)).st,
          (isRedirectionAux fs (f :: rest') st.openFd.1 inF
            (some st.openFd.2)).inFile,
          (isRedirectionAux fs (f :: rest') st.openFd.1 inF
            (some st.openFd.2)).outFile,
          Event.openW f st.openFd.2 ::
            (isRedirectionAux fs (f :: rest') st.openFd.1 inF
              (some st.openFd.2)).events⟩
      else ⟨false, st, inF, outF, [Event.openFail f]⟩ := rfl

/-- Unfolding equation for a token that is not a redirection operator. -/
theorem isRedirectionAux_cons_other (fs : FS) (a : String)
    (rest : List String) (st : ShellState) (inF outF : Option Nat)
    (ha : a ≠ "<") (ha' : a ≠ ">") :
    isRedirectionAux fs (a :: rest) st inF outF =
      isRedirectionAux fs rest st inF outF := by
  cases rest <;> simp [isRedirectionAux, ha, ha']

/-- Every event the resolver emits is an input open, an output open, or an
open-failure report — it never forks, closes, or waits. -/
theorem isRedirectionAux_events_openlike (fs : FS) (args : List String) :
    ∀ (st : ShellState) (inF outF : Option Nat) (e : Event),
      e ∈ (isRedirectionAux fs args st inF outF).events →
      (∃ p fd, e = Event.openR p fd) ∨ (∃ p fd, e = Event.openW p fd) ∨
        ∃ p, e = Event.openFail p := by
  induction args with
  | nil => intro st inF outF e he; simp [isRedirectionAux] at he
  | cons a rest ih =>
    intro st inF outF e he
    by_cases ha : a = "<"
    · subst ha
      cases rest with
      | nil =>
        rw [(isRedirectionAux_op_nil fs st inF outF).1] at he
        simp at he
      | cons f rest' =>
        rw [isRedirectionAux_cons_lt] at he
        by_cases hf : fs.canRead f = true
        · rw [if_pos hf] at he
          rcases List.mem_cons.mp he with he | he
          · exact Or.inl ⟨f, _, he⟩
          · exact ih _ _ _ e he
        · rw [if_neg hf] at he
          rcases List.mem_singleton.mp he with rfl
          exact Or.inr (Or.inr ⟨f, rfl⟩)
    · by_cases ha' : a = ">"
      · subst ha'
        cases rest with
        | nil =>
          rw [(isRedirectionAux_op_nil fs st inF outF).2] at he
          simp at he
        | cons f rest' =>
          rw [isRedirectionAux_cons_gt] at he
          by_cases hf : fs.canWrite f = true
          · rw [if_pos hf] at he
            rcases List.mem_cons.mp he with he | he
            · exact Or.inr (Or.inl ⟨f, _, he⟩)
            · exact ih _ _ _ e he
          · rw [if_neg hf] at he
            rcases List.mem_singleton.mp he with rfl
            exact Or.inr (Or.inr ⟨f, rfl⟩)
      · rw [isRedirectionAux_cons_other fs a rest st inF outF ha ha'] at he
        exact ih _ _ _ e he

/-- When the resolver returns failure, some open-failure report is in its
event trace. -/
theorem isRedirectionAux_fail_reports (fs : FS) (args : List String) :
    ∀ (st : ShellState) (inF outF : Option Nat),
      (isRedirectionAux fs args st inF outF).ok = false →
      ∃ p, Event.openFail p ∈ (isRedirectionAux fs args st inF outF).events := by
  induction args with
  | nil => intro st inF outF h; simp [isRedirectionAux] at h
  | cons a rest ih =>
    intro st inF outF h
    by_cases ha : a = "<"
    · subst ha
      cases rest with
      | nil => rw [(isRedirectionAux_op_nil fs st inF outF).1] at h; simp at h
      | cons f rest' =>
        rw [isRedirectionAux_cons_lt] at h ⊢
        by_cases hf : fs.canRead f = true
        · rw [if_pos hf] at h ⊢
          rcases ih _ _ _ h with ⟨p, hp⟩
          exact ⟨p, List.mem_cons_of_mem _ hp⟩
        · rw [if_neg hf]
          exact ⟨f, List.mem_singleton.mpr rfl⟩
    · by_cases ha' : a = ">"
      · subst ha'
        cases rest with
        | nil =>
          rw [(isRedirectionAux_op_nil fs st inF outF).2] at h; simp at h
        | cons f rest' =>
          rw [isRedirectionAux_cons_gt] at h ⊢
          by_cases hf : fs.canWrite f = true
          · rw [if_pos hf] at h ⊢
            rcases ih _ _ _ h with ⟨p, hp⟩
            exact ⟨p, List.mem_cons_of_mem _ hp⟩
          · rw [if_neg hf]
            exact ⟨f, List.mem_singleton.mpr rfl⟩
      · rw [isRedirectionAux_cons_other fs a rest st inF outF ha ha'] at h ⊢
        exact ih _ _ _ h

/-- A token list with an unopenable redirection pair makes the resolver
return failure, wherever in the list the pair sits. -/
theorem isRedirectionAux_bad_fails (fs : FS) (args : List String) :
    ∀ (st : ShellState) (inF outF : Option Nat),
      hasBadRedirect fs args = true →
      (isRedirectionAux fs args st inF outF).ok = false := by
  induction args with
  | nil => intro st inF outF hbad; simp [hasBadRedirect] at hbad
  | cons a rest ih =>
    intro st inF outF hbad
    cases rest with
    | nil => simp [hasBadRedirect] at hbad
    | cons f rest' =>
      by_cases ha : a = "<"
      · subst ha
        by_cases hf : fs.canRead f = true
        · have hbad' : hasBadRedirect fs (f :: rest') = true := by
            simp only [hasBadRedirect, Bool.or_eq_true, Bool.and_eq_true,
              beq_iff_eq, Bool.not_eq_true'] at hbad
            rcases hbad with (⟨_, h2⟩ | ⟨h1, _⟩) | h
            · exact absurd hf (by simp [h2])
            · exact absurd h1 (by decide)
            · exact h
          rw [isRedirectionAux_cons_lt, if_pos hf]
          exact ih _ _ _ hbad'
        · rw [isRedirectionAux_cons_lt, if_neg hf]
      · by_cases ha' : a = ">"
        · subst ha'
          by_cases hf : fs.canWrite f = true
          · have hbad' : hasBadRedirect fs (f :: rest') = true := by
              simp only [hasBadRedirect, Bool.or_eq_true, Bool.and_eq_true,
                beq_iff_eq, Bool.not_eq_true'] at hbad
              rcases hbad with (⟨h1, _⟩ | ⟨_, h2⟩) | h
              · exact absurd h1 (by decide)
              · exact absurd hf (by simp [h2])
              · exact h
            rw [isRedirectionAux_cons_gt, if_pos hf]
            exact ih _ _ _ hbad'
          · rw [isRedirectionAux_cons_gt, if_neg hf]
        · have hbad' : hasBadRedirect fs (f :: rest') = true := by
            simp only [hasBadRedirect, Bool.or_eq_true, Bool.and_eq_true,
              beq_iff_eq] at hbad
            rcases hbad with (⟨h1, _⟩ | ⟨h1, _⟩) | h
            · exact absurd h1 ha
            · exact absurd h1 ha'
            · exact h
          rw [isRedirectionAux_cons_other fs a (f :: rest') st inF outF ha ha']
          exact ih _ _ _ hbad'

/-- A token list free of redirection operators passes through the child's
argument-vector loop unchanged. -/
theorem childArgv_clean (args : List String)
    (h : ∀ a ∈ args, a ≠ "<" ∧ a ≠ ">") : childArgv args = args := by
  induction args with
  | nil => rfl
  | cons a rest ih =>
    have ha := h a (List.mem_cons_self a rest)
    simp [childArgv, ha.1, ha.2,
      ih fun b hb => h b (List.mem_cons_of_mem a hb)]

/-- The child's argument-vector loop stops at the first redirection
operator. -/
theorem childArgv_stops (op : String) (hop : op = "<" ∨ op = ">")
    (pre : List String) (hpre : ∀ a ∈ pre, a ≠ "<" ∧ a ≠ ">")
    (suff : List String) :
    childArgv (pre ++ op :: suff) = pre := by
  induction pre with
  | nil => rcases hop with rfl | rfl <;> simp [childArgv]
  | cons a pre' ih =>
    have ha := hpre a (List.mem_cons_self a pre')
    simp [childArgv, ha.1, ha.2,
      ih fun b hb => hpre b (List.mem_cons_of_mem a hb)]

/-- Appending a trailing redirection operator to a list that does not end
in an operator leaves the resolver's behaviour unchanged. -/
theorem isRedirectionAux_append_op (fs : FS) (op : String)
    (hop : op = "<" ∨ op = ">") (args : List String) :
    ∀ (st : ShellState) (inF outF : Option Nat),
      lastIsOperator args = false →
      isRedirectionAux fs (args ++ [op]) st inF outF =
        isRedirectionAux fs args st inF outF := by
  induction args with
  | nil =>
    intro st inF outF _
    rcases hop with rfl | rfl
    · exact (isRedirectionAux_op_nil fs st inF outF).1
    · exact (isRedirectionAux_op_nil fs st inF outF).2
  | cons a rest ih =>
    intro st inF outF hlast
    cases rest with
    | nil =>
      have ha : a ≠ "<" ∧ a ≠ ">" := by
        simpa [lastIsOperator] using hlast
      rw [show (a :: ([] : List String)) ++ [op] = a :: [op] from rfl,
        isRedirectionAux_cons_other fs a [op] st inF outF ha.1 ha.2,
        isRedirectionAux_cons_other fs a [] st inF outF ha.1 ha.2]
      exact ih st inF outF rfl
    | cons b rest' =>
      have hlast' : lastIsOperator (b :: rest') = false := hlast
      by_cases ha : a = "<"
      · subst ha
        rw [show ("<" :: b :: rest') ++ [op] = "<" :: b :: (rest' ++ [op])
            from rfl,
          isRedirectionAux_cons_lt fs b (rest' ++ [op]) st inF outF,
          isRedirectionAux_cons_lt fs b rest' st inF outF]
        by_cases hf : fs.canRead b = true
        · have ih' := ih st.openFd.1 (some st.openFd.2) outF hlast'
          rw [List.cons_append] at ih'
          rw [if_pos hf, if_pos hf, ih']
        · rw [if_neg hf, if_neg hf]
      · by_cases ha' : a = ">"
        · subst ha'
          rw [show (">" :: b :: rest') ++ [op] = ">" :: b :: (rest' ++ [op])
              from rfl,
            isRedirectionAux_cons_gt fs b (rest' ++ [op]) st inF outF,
            isRedirectionAux_cons_gt fs b rest' st inF outF]
          by_cases hf : fs.canWrite b = true
          · have ih' := ih st.openFd.1 inF (some st.openFd.2) hlast'
            rw [List.cons_append] at ih'
            rw [if_pos hf, if_pos hf, ih']
          · rw [if_neg hf, if_neg hf]
        · rw [show (a :: b :: rest') ++ [op] = a :: ((b :: rest') ++ [op])
              from rfl,
            isRedirectionAux_cons_other fs a ((b :: rest') ++ [op]) st inF
              outF ha ha',
            isRedirectionAux_cons_other fs a (b :: rest') st inF outF ha ha']
          exact ih st inF outF hlast'

/-- The tokenizer loop refines the spec tokenizer: with a partially read
token `acc` (stored reversed), it completes `acc` with the leading
non-whitespace run and then behaves as the spec tokenizer. -/
theorem parseAux_eq_specTokensL (cs : List Char) :
    ∀ acc : List Char,
      parseAux cs acc =
        if acc = [] then specTokensL cs
        else (acc.reverse ++ cs.takeWhile fun d => !isSpace d) ::
          specTokensL (cs.dropWhile fun d => !isSpace d) := by
  induction cs with
  | nil =>
    intro acc
    by_cases hacc : acc = [] <;> simp [parseAux, hacc, specTokensL]
  | cons c rest ih =>
    intro acc
    by_cases hc : isSpace c = true
    · by_cases hacc : acc = []
      · subst hacc
        simp [parseAux, hc, ih, specTokensL]
      · simp [parseAux, hc, hacc, ih, specTokensL, List.takeWhile_cons,
          List.dropWhile_cons]
    · by_cases hacc : acc = []
      · subst hacc
        simp [parseAux, hc, ih, specTokensL, List.takeWhile_cons,
          List.dropWhile_cons]
      · simp [parseAux, hc, hacc, ih, specTokensL, List.takeWhile_cons,
          List.dropWhile_cons]

/-- Every token the tokenizer loop produces is non-empty and free of
whitespace characters, provided the partial token read so far is. -/
theorem parseAux_tokens_clean (cs : List Char) :
    ∀ acc : List Char, (∀ c ∈ acc, isSpace c = false) →
      ∀ t ∈ parseAux cs acc, t ≠ [] ∧ ∀ c ∈ t, isSpace c = false := by
  induction cs with
  | nil =>
    intro acc hacc t ht
    by_cases h : acc = []
    · simp [parseAux, h] at ht
    · simp only [parseAux, if_neg h, List.mem_singleton] at ht
      subst ht
      refine ⟨by simpa using h, fun c hc => hacc c (List.mem_reverse.mp hc)⟩
  | cons c rest ih =>
    intro acc hacc t ht
    by_cases hc : isSpace c = true
    · by_cases h : acc = []
      · subst h
        simp only [parseAux, hc, if_true, if_pos rfl] at ht
        exact ih [] (by simp) t ht
      · simp only [parseAux, hc, if_true, if_neg h, List.mem_cons] at ht
        rcases ht with rfl | ht
        · refine ⟨by simpa using h, fun d hd => hacc d (List.mem_reverse.mp hd)⟩
        · exact ih [] (by simp) t ht
    · simp only [parseAux, hc, if_false, Bool.false_eq_true] at ht
      refine ih (c :: acc) ?_ t ht
      intro d hd
      rcases List.mem_cons.mp hd with rfl | hd
      · simpa using hc
      · exact hacc d hd

/-! ### Claim theorems -/

/-- Claim C1, counterexample: on `["a", "|", "b", "|", "c"]` the splitter
produces stage 2 `["b", "c"]` — the second `"|"` token is skipped by the
`continue`, not folded into stage 2 as the claim states. -/
theorem splitPipe_drops_second_pipe_token :
    splitPipe ["a", "|", "b", "|", "c"] = (["a"], ["b", "c"]) ∧
    splitPipe ["a", "|", "b", "|", "c"] ≠ (["a"], ["b", "|", "c"]) := by
  constructor <;> decide

/-- Claim C1, amended: for a token list with a first `"|"`, stage 1 is all
tokens strictly before it and stage 2 is all tokens strictly after it with
every further `"|"` token removed. -/
theorem splitPipe_splits_at_first_pipe (pre post : List String)
    (hpre : "|" ∉ pre) :
    splitPipe (pre ++ "|" :: post) = (pre, post.filter fun t => t != "|") := by
  unfold splitPipe
  induction pre with
  | nil => simp [splitPipeAux, splitPipeAux_found]
  | cons a pre' ih =>
    have ha : a ≠ "|" := fun h => hpre (h ▸ List.mem_cons_self a pre')
    have hpre' : "|" ∉ pre' := fun h => hpre (List.mem_cons_of_mem a h)
    simp [splitPipeAux, ha, ih hpre']

/-- Claim C1, witness for the amended theorem at a concrete input. -/
theorem splitPipe_splits_at_first_pipe_witness :
    splitPipe (["ls", "-l"] ++ "|" :: ["wc", "|", "sort"]) =
      (["ls", "-l"], ["wc", "sort"]) :=
  splitPipe_splits_at_first_pipe ["ls", "-l"] ["wc", "|", "sort"] (by decide)

/-- Claim C2: the parent does leak descriptors. For `cmd > a > b` the
descriptor opened for `a` is overwritten by the one for `b` and never
closed, so after the command the parent holds one descriptor above its
baseline; and when the second fork of a pipeline fails, both pipe ends
stay open in the parent. -/
theorem repeated_redirect_and_fork2_leak :
    (executeCommand ⟨fun _ => true, fun _ => true⟩ true
        ["cmd", ">", "a", ">", "b"] ⟨0, [], 0⟩).st.openFds = [0] ∧
    (executePipedCommands true true false ["ls", "|", "wc"]
        ⟨0, [], 0⟩).st.openFds = [1, 0] := by
  constructor <;> decide

/-- Claim C4, counterexample: when the second fork of a pipeline fails, a
child process does exist — the trace contains the `forked` event of the
first child (and indeed no wait is performed on it), contradicting the
claim's assertion that no child process exists. -/
theorem second_fork_failure_child_exists :
    (executePipedCommands true true false ["ls", "|", "wc"]
        ⟨0, [], 0⟩).events =
      [Event.pipeCreated 0 1, Event.forked 0, Event.forkFail] ∧
    Event.forked 0 ∈
      (executePipedCommands true true false ["ls", "|", "wc"]
        ⟨0, [], 0⟩).events := by
  constructor <;> decide

/-- Claim C5: when the pipe and both forks succeed, the parent's trace is
exactly: pipe creation, the two forks, the close of both pipe ends, then
one blocking wait per child — so both children are reaped before the
launcher returns and the parent holds no pipe end while waiting; its
open-descriptor list returns to what it was before the command. -/
theorem piped_success_parent_trace (args : List String) (st : ShellState) :
    (executePipedCommands true true true args st).events =
      [Event.pipeCreated st.nextFd (st.nextFd + 1), Event.forked st.nextPid,
        Event.forked (st.nextPid + 1), Event.closeFd st.nextFd,
        Event.closeFd (st.nextFd + 1), Event.waited st.nextPid,
        Event.waited (st.nextPid + 1)] ∧
    (executePipedCommands true true true args st).st.openFds =
      st.openFds := by
  refine ⟨rfl, ?_⟩
  simp [executePipedCommands, ShellState.openFd, ShellState.spawn,
    ShellState.closeFd, List.erase_cons]

/-- Claim C3: if the token list contains `"<"` followed by an unreadable
path or `">"` followed by an unwritable path, the resolver reports the
failure (an open-failure report is in the trace) and returns failure, and
the single-stage launcher aborts the command: no child is forked and no
wait is performed. -/
theorem redirect_open_failure_aborts (fs : FS) (forkOk : Bool)
    (args : List String) (st : ShellState)
    (hbad : hasBadRedirect fs args = true) :
    (isRedirection fs args st).ok = false ∧
    (∃ p, Event.openFail p ∈ (executeCommand fs forkOk args st).events) ∧
    (∀ pid, Event.forked pid ∉ (executeCommand fs forkOk args st).events) ∧
    Event.waitAny ∉ (executeCommand fs forkOk args st).events := by
  have hok : (isRedirection fs args st).ok = false :=
    isRedirectionAux_bad_fails fs args st none none hbad
  have hev : (executeCommand fs forkOk args st).events =
      (isRedirection fs args st).events := by
    simp [executeCommand, hok]
  refine ⟨hok, ?_, ?_, ?_⟩
  · rw [hev]
    exact isRedirectionAux_fail_reports fs args st none none hok
  · intro pid hmem
    rw [hev] at hmem
    rcases isRedirectionAux_events_openlike fs args st none none _ hmem with
      ⟨p, fd, h⟩ | ⟨p, fd, h⟩ | ⟨p, h⟩ <;> simp at h
  · intro hmem
    rw [hev] at hmem
    rcases isRedirectionAux_events_openlike fs args st none none _ hmem with
      ⟨p, fd, h⟩ | ⟨p, fd, h⟩ | ⟨p, h⟩ <;> simp at h

/-- Claim C3, witness: `sort < missing.txt` with an unreadable file. -/
theorem redirect_open_failure_aborts_witness :
    (isRedirection ⟨fun _ => false, fun _ => true⟩
      ["sort", "<", "missing.txt"] ⟨0, [], 0⟩).ok = false :=
  (redirect_open_failure_aborts ⟨fun _ => false, fun _ => true⟩ true
    ["sort", "<", "missing.txt"] ⟨0, [], 0⟩ (by decide)).1

/-- Claim C4, amended: a fork failure is reported and the command
abandoned with no wait performed, in all three fork sites. In the
single-stage launcher no child exists (no `forked` event); likewise when
the first fork of a pipeline fails; but when the second fork fails the
first child has already been created and is left unreaped. -/
theorem fork_failure_reported_no_wait (fs : FS) (args : List String)
    (st : ShellState) (hok : (isRedirection fs args st).ok = true) :
    (Event.forkFail ∈ (executeCommand fs false args st).events ∧
      Event.waitAny ∉ (executeCommand fs false args st).events ∧
      (∀ p, Event.waited p ∉ (executeCommand fs false args st).events) ∧
      (∀ p, Event.forked p ∉ (executeCommand fs false args st).events)) ∧
    (executePipedCommands true false true args st).events =
      [Event.pipeCreated st.nextFd (st.nextFd + 1), Event.forkFail] ∧
    (executePipedCommands true true false args st).events =
      [Event.pipeCreated st.nextFd (st.nextFd + 1), Event.forked st.nextPid,
        Event.forkFail] := by
  have hev : (executeCommand fs false args st).events =
      (isRedirection fs args st).events ++ [Event.forkFail] := by
    simp [executeCommand, hok]
  refine ⟨⟨?_, ?_, ?_, ?_⟩, rfl, rfl⟩
  · rw [hev]
    exact List.mem_append_right _ (List.mem_singleton.mpr rfl)
  · intro hmem
    rw [hev] at hmem
    rcases List.mem_append.mp hmem with hmem | hmem
    · rcases isRedirectionAux_events_openlike fs args st none none _ hmem with
        ⟨p, fd, h⟩ | ⟨p, fd, h⟩ | ⟨p, h⟩ <;> simp at h
    · simp at hmem
  · intro p hmem
    rw [hev] at hmem
    rcases List.mem_append.mp hmem with hmem | hmem
    · rcases isRedirectionAux_events_openlike fs args st none none _ hmem with
        ⟨q, fd, h⟩ | ⟨q, fd, h⟩ | ⟨q, h⟩ <;> simp at h
    · simp at hmem
  · intro p hmem
    rw [hev] at hmem
    rcases List.mem_append.mp hmem with hmem | hmem
    · rcases isRedirectionAux_events_openlike fs args st none none _ hmem with
        ⟨q, fd, h⟩ | ⟨q, fd, h⟩ | ⟨q, h⟩ <;> simp at h
    · simp at hmem

/-- Claim C4, witness: a fork failure on a plain `pwd` command. -/
theorem fork_failure_reported_no_wait_witness :
    Event.forkFail ∈ (executeCommand ⟨fun _ => true, fun _ => true⟩ false
      ["pwd"] ⟨0, [], 0⟩).events :=
  ((fork_failure_reported_no_wait ⟨fun _ => true, fun _ => true⟩ ["pwd"]
    ⟨0, [], 0⟩ (by decide)).1).1

/-- Claim C6: the child's argument vector is exactly the tokens strictly
before the first redirection operator, followed by the null terminator —
for a list with a first operator it is the clean prefix, for a list with
no operator it is the whole list, and for `sort < in.txt > out.txt` it is
exactly `["sort"]`. -/
theorem child_argv_before_first_redirect (pre suff plain : List String)
    (op : String) (hop : op = "<" ∨ op = ">")
    (hpre : ∀ a ∈ pre, a ≠ "<" ∧ a ≠ ">")
    (hplain : ∀ a ∈ plain, a ≠ "<" ∧ a ≠ ">") :
    childArgvNull (pre ++ op :: suff) = pre.map some ++ [none] ∧
    childArgvNull plain = plain.map some ++ [none] ∧
    childArgvNull ["sort", "<", "in.txt", ">", "out.txt"] =
      [some "sort", none] := by
  refine ⟨?_, ?_, by decide⟩
  · unfold childArgvNull
    rw [childArgv_stops op hop pre hpre suff]
  · unfold childArgvNull
    rw [childArgv_clean plain hplain]

/-- Claim C6, witness: the spec's own example. -/
theorem child_argv_before_first_redirect_witness :
    childArgvNull (["sort"] ++ "<" :: ["in.txt", ">", "out.txt"]) =
      ["sort"].map some ++ [none] :=
  (child_argv_before_first_redirect ["sort"] ["in.txt", ">", "out.txt"]
    ["echo", "hi"] "<" (Or.inl rfl) (by decide) (by decide)).1

/-- Claim C7, counterexample: in `["x", ">", "a", ">"]` the operator `">"`
is the last token, and resolution succeeds, but the output descriptor is
not unset — it was set by the earlier `">"`. -/
theorem trailing_redirect_descriptor_set :
    (isRedirection ⟨fun _ => true, fun _ => true⟩ ["x", ">", "a", ">"]
      ⟨0, [], 0⟩).ok = true ∧
    (isRedirection ⟨fun _ => true, fun _ => true⟩ ["x", ">", "a", ">"]
      ⟨0, [], 0⟩).outFile = some 0 ∧
    some 0 ≠ (none : Option Nat) := by
  exact ⟨by decide, by decide, by decide⟩

/-- Claim C7, amended: when `"<"` or `">"` is the last token and the
token before it is not itself a redirection operator (so it is not
consumed as a filename), resolution of the list is identical to
resolution of the list without it — no descriptor is opened for it, no
error reported for it, and the success flag and descriptors are those of
the rest of the list. -/
theorem trailing_redirect_ignored (fs : FS) (args : List String)
    (st : ShellState) (op : String) (hop : op = "<" ∨ op = ">")
    (hlast : lastIsOperator args = false) :
    isRedirection fs (args ++ [op]) st = isRedirection fs args st :=
  isRedirectionAux_append_op fs op hop args st none none hlast

/-- Claim C7, witness: appending a trailing `">"` to `x > a` changes
nothing. -/
theorem trailing_redirect_ignored_witness :
    isRedirection ⟨fun _ => true, fun _ => true⟩ (["x", ">", "a"] ++ [">"])
      ⟨0, [], 0⟩ =
    isRedirection ⟨fun _ => true, fun _ => true⟩ ["x", ">", "a"]
      ⟨0, [], 0⟩ :=
  trailing_redirect_ignored ⟨fun _ => true, fun _ => true⟩ ["x", ">", "a"]
    ⟨0, [], 0⟩ ">" (Or.inr rfl) (by decide)

/-- Claim C10: the read loop's filter rejects only the empty string, so a
line of one space is accepted, yet it tokenizes to the empty list — the
dispatcher's `args[0]` access is then out of bounds. -/
theorem whitespace_line_yields_no_tokens :
    acceptsLine " " = true ∧ parseCommand " " = [] := by
  constructor <;> decide

/-- Claim C8: the tokenizer equals the spec's maximal-non-whitespace-runs
tokenizer on every input (so it splits on runs of whitespace, in order,
deterministically and without side effects — it is a pure function);
`"ls -la /tmp"` gives `["ls", "-la", "/tmp"]`, a spaces-only line gives
`[]`, and every produced token is non-empty and whitespace-free. -/
theorem parseCommand_tokenizes_whitespace (s : String) :
    parseCommand s = specTokens s ∧
    parseCommand "ls -la /tmp" = ["ls", "-la", "/tmp"] ∧
    parseCommand "   " = [] ∧
    ∀ t ∈ parseCommand s, t ≠ "" ∧ ∀ c ∈ t.data, isSpace c = false := by
  refine ⟨?_, by decide, by decide, ?_⟩
  · unfold parseCommand specTokens
    rw [parseAux_eq_specTokensL s.data []]
    simp
  · intro t ht
    unfold parseCommand at ht
    rcases List.mem_map.mp ht with ⟨l, hl, rfl⟩
    have hcl := parseAux_tokens_clean s.data [] (by simp) l hl
    refine ⟨fun h => hcl.1 (congrArg String.data h), fun c hc => hcl.2 c hc⟩

/-- Claim C8, witness: the refinement at the spec's example line. -/
theorem parseCommand_tokenizes_whitespace_witness :
    parseCommand "ls -la /tmp" = specTokens "ls -la /tmp" :=
  (parseCommand_tokenizes_whitespace "ls -la /tmp").1

/-- Claim C9: for a non-empty token list the routing is an ordered,
mutually exclusive four-way dispatch — exit wins, then the
directory-change built-in, then the two-stage launcher when a pipe token
is present, otherwise the single-stage path; each route is taken exactly
under the stated condition, so never more than one runs. -/
theorem dispatch_routes_exclusive (a : String) (rest : List String) :
    (dispatch (a :: rest) = Route.exitLoop ↔ a = "exit") ∧
    (dispatch (a :: rest) = Route.builtinCd ↔ a ≠ "exit" ∧ a = "cd") ∧
    (dispatch (a :: rest) = Route.piped ↔
      a ≠ "exit" ∧ a ≠ "cd" ∧ "|" ∈ a :: rest) ∧
    (dispatch (a :: rest) = Route.single ↔
      a ≠ "exit" ∧ a ≠ "cd" ∧ "|" ∉ a :: rest) := by
  by_cases h1 : a = "exit"
  · simp [dispatch, h1]
  · by_cases h2 : a = "cd"
    · simp [dispatch, h1, h2]
    · by_cases h3 : hasPipe (a :: rest) = true
      · simp [dispatch, h1, h2, h3, (hasPipe_iff _).mp h3]
      · have h3' : "|" ∉ a :: rest := fun hm => h3 ((hasPipe_iff _).mpr hm)
        simp [dispatch, h1, h2, h3, h3']

/-- Claim C9, witness: the dispatch characterisation at a concrete
command. -/
theorem dispatch_routes_exclusive_witness :
    dispatch ("ls" :: ["|", "wc"]) = Route.piped ↔
      "ls" ≠ "exit" ∧ "ls" ≠ "cd" ∧ "|" ∈ "ls" :: ["|", "wc"] :=
  (dispatch_routes_exclusive "ls" ["|", "wc"]).2.2.1

end Mishell
